import Mathlib

/-!
Shallow embedding of the upload controller of matrix-media-repo
(`controllers/upload_controller/upload_controller.go`).

External collaborators (config loader, glob matcher, datastore facade,
media store, metadata store, MIME sniffer, hasher, filesystem, clock) are
modelled as explicit parameters: the configuration view is a structure, the
glob matcher is a function argument, and the outcome of every external call
made by `StoreDirect` is supplied through an `Env` oracle record.  Side
effects (temp-file remove/rename, record inserts, last-access upserts) are
collected into an `Effects` trace so that cleanup and best-effort behavior
can be stated.
-/

namespace UploadController

/-- The sentinel user id, `const NoApplicableUploadUser = ""`. -/
def NoApplicableUploadUser : String := ""

/-- The upload options of the configuration view (`config.Get().Uploads`).
`perUserExclusions` is a Go map from user-id glob to MIME globs; it is
modelled as an association list in its iteration order. -/
structure UploadsConfig where
  maxSizeBytes : Int
  allowedTypes : List String
  perUserExclusions : List (String × List String)
deriving DecidableEq, Repr

/-- A media record (`types.Media`), with the fields touched by the
controller. -/
structure Media where
  origin : String
  mediaId : String
  uploadName : String
  contentType : String
  userId : String
  sha256Hash : String
  sizeBytes : Int
  datastoreId : String
  location : String
  creationTs : Int
deriving DecidableEq, Repr

/-- The error surface of the controller: the well-known sentinel errors
`common.ErrMediaNotAllowed` and `errors.New ("file has no contents")`, and
opaque wrapped I/O or database errors. -/
inductive Err where
  | mediaNotAllowed : Err
  | fileHasNoContents : Err
  | io (msg : String) : Err
deriving DecidableEq, Repr

/-- Model of `strconv.ParseInt (s, 10, 64)`, as an `Option`: `none` is any non-nil
error (syntax or range), `some v` the parsed value.  Base 10 accepts an
optional leading sign followed by one or more ASCII digits, and the result
must fit in a signed 64-bit integer. -/
def goParseInt64 (s : String) : Option Int :=
  if s = "" then none
  else
    let (neg, digits) :=
      if s.startsWith "-" then (true, s.drop 1)
      else if s.startsWith "+" then (false, s.drop 1)
      else (false, s)
    if digits = "" then none
    else if digits.all Char.isDigit then
      let n : Nat := digits.foldl (fun acc c => acc * 10 + (c.toNat - 48)) 0
      let v : Int := if neg then -(n : Int) else (n : Int)
      if v < -(2 ^ 63) ∨ 2 ^ 63 - 1 < v then none else some v
    else none

/-- The predicate `IsRequestTooLarge (contentLength, contentLengthHeader)`, with the
configuration view passed explicitly. -/
def IsRequestTooLarge (cfg : UploadsConfig) (contentLength : Int)
    (contentLengthHeader : String) : Bool :=
  if cfg.maxSizeBytes ≤ 0 then false
  else if contentLength ≥ 0 then contentLength > cfg.maxSizeBytes
  else if contentLengthHeader ≠ "" then
    match goParseInt64 contentLengthHeader with
    | none => true
    | some parsed => parsed > cfg.maxSizeBytes
  else false

/-- The inner loop of `IsAllowed` over one per-user entry's MIME globs:
`allowed` becomes true at the first glob matching the sniffed type. -/
def anyGlobMatches (glob : String → String → Bool) (contentType : String) :
    List String → Bool
  | [] => false
  | g :: rest =>
    if glob g contentType then true else anyGlobMatches glob contentType rest

/-- The per-user loop of `IsAllowed`: iterates the `PerUserExclusions`
entries with the running `userMatched` flag, returning
`(allowed, userMatched, log)`.  The loop breaks as soon as `allowed` is
set; the log lines mirror the `log.Info` calls. -/
def perUserLoop (glob : String → String → Bool)
    (contentType reportedContentType userId : String) :
    List (String × List String) → Bool → Bool × Bool × List String
  | [], userMatched => (false, userMatched, [])
  | (user, userExcl) :: rest, userMatched =>
    if glob user userId then
      let log1 : List String :=
        if userMatched then []
        else ["Per-user allowed types policy found for " ++ userId]
      if anyGlobMatches glob contentType userExcl then
        (true, true,
          log1 ++ ["Content type " ++ contentType ++ " (reported as " ++
            reportedContentType ++ ") is allowed due to a per-user policy for "
            ++ userId])
      else
        let r := perUserLoop glob contentType reportedContentType userId rest true
        (r.1, r.2.1, log1 ++ r.2.2)
    else
      perUserLoop glob contentType reportedContentType userId rest userMatched

/-- The admission policy `IsAllowed (contentType, reportedContentType, userId, log)`.  Returns
the decision together with the emitted log lines; the glob matcher
(`github.com/ryanuber/go-glob`) is an explicit parameter. -/
def IsAllowed (glob : String → String → Bool) (cfg : UploadsConfig)
    (contentType reportedContentType userId : String) : Bool × List String :=
  let r :=
    if userId ≠ NoApplicableUploadUser then
      perUserLoop glob contentType reportedContentType userId
        cfg.perUserExclusions false
    else (false, false, [])
  let allowed := r.1
  let userMatched := r.2.1
  if !userMatched && !allowed then
    let allowed2 := anyGlobMatches glob contentType cfg.allowedTypes
    let allowed3 := if cfg.allowedTypes.length = 0 then true else allowed2
    (allowed3,
      r.2.2 ++ ["Checking general allowed types due to no matching per-user policy"])
  else (allowed, r.2.2)

/-- Outcomes of the external calls a single `StoreDirect` execution makes,
supplied as an oracle.  Each field is the result of the corresponding
collaborator call; `removeFails` and `renameFails` are the outcomes of the
`os.Remove` / `os.Rename` calls, whose returned errors the code discards. -/
structure Env where
  persistResult : Except Err (String × String)
  resolveFilePath : String → String
  getMimeType : Except Err String
  getFileHash : Except Err String
  getByHash : Except Err (List Media)
  insertResult : Option Err
  resolveMediaLocation : Except Err String
  fileExists : Except Err Bool
  fileSize : Except Err Int
  upsertLastAccess : Option Err
  nowMillis : Int
  removeFails : Bool
  renameFails : Bool

/-- A filesystem operation issued by the controller, with whether it
succeeded (the controller never inspects the outcome). -/
inductive FsOp where
  | remove (path : String) (ok : Bool) : FsOp
  | rename (src dst : String) (ok : Bool) : FsOp
deriving DecidableEq, Repr

/-- The externally visible side effects of one `StoreDirect` execution:
filesystem operations, records handed to `db.Insert`, and last-access
upserts `(hash, timestamp, succeeded)`. -/
structure Effects where
  fsOps : List FsOp
  inserted : List Media
  upserts : List (String × Int × Bool)
deriving DecidableEq, Repr

/-- The helper `trackUploadAsLastAccess`: upserts `(media.Sha256Hash, util.NowMillis())`;
a failure is logged at warning level and swallowed, so only the attempt and
its outcome are recorded. -/
def trackUploadAsLastAccess (env : Env) (media : Media) :
    String × Int × Bool :=
  (media.sha256Hash, env.nowMillis, env.upsertLastAccess.isNone)

/-- The reconciliation engine `StoreDirect (contents, contentType, filename,
userId, origin, mediaId, ctx, log)`, returning the record-or-error paired
with the trace of side effects. -/
def StoreDirect (glob : String → String → Bool) (cfg : UploadsConfig)
    (env : Env) (contentType filename userId origin mediaId : String) :
    Except Err Media × Effects :=
  match env.persistResult with
  | .error e => (.error e, ⟨[], [], []⟩)
  | .ok (datastoreId, location) =>
    let fileLocation := env.resolveFilePath location
    match env.getMimeType with
    | .error e =>
      (.error e, ⟨[.remove fileLocation (!env.removeFails)], [], []⟩)
    | .ok fileMime =>
      let allowed := (IsAllowed glob cfg fileMime contentType userId).1
      if !allowed then
        (.error .mediaNotAllowed,
          ⟨[.remove fileLocation (!env.removeFails)], [], []⟩)
      else
        match env.getFileHash with
        | .error e =>
          (.error e, ⟨[.remove fileLocation (!env.removeFails)], [], []⟩)
        | .ok hash =>
          match env.getByHash with
          | .error e =>
            (.error e, ⟨[.remove fileLocation (!env.removeFails)], [], []⟩)
          | .ok records =>
            match records with
            | record0 :: rest =>
              -- len(records) > 0: duplicate media for this hash
              let exact :=
                if userId ≠ NoApplicableUploadUser then
                  (record0 :: rest).find? fun r =>
                    r.userId == userId && r.origin == origin &&
                      r.contentType == contentType
                else none
              match exact with
              | some record =>
                (.ok record,
                  ⟨[.remove fileLocation (!env.removeFails)], [],
                    [trackUploadAsLastAccess env record]⟩)
              | none =>
                let media : Media :=
                  { record0 with
                    origin := origin
                    mediaId := mediaId
                    userId := userId
                    uploadName := filename
                    contentType := contentType
                    creationTs := env.nowMillis }
                match env.insertResult with
                | some e =>
                  (.error e,
                    ⟨[.remove fileLocation (!env.removeFails)], [media], []⟩)
                | none =>
                  match env.resolveMediaLocation with
                  | .error e2 => (.error e2, ⟨[], [media], []⟩)
                  | .ok targetPath =>
                    let fsOp :=
                      match env.fileExists with
                      | .error _ =>
                        FsOp.rename fileLocation targetPath (!env.renameFails)
                      | .ok false =>
                        FsOp.rename fileLocation targetPath (!env.renameFails)
                      | .ok true =>
                        FsOp.remove fileLocation (!env.removeFails)
                    (.ok media,
                      ⟨[fsOp], [media], [trackUploadAsLastAccess env media]⟩)
            | [] =>
              -- the media does not already exist: save it as new
              match env.fileSize with
              | .error e =>
                (.error e, ⟨[.remove fileLocation (!env.removeFails)], [], []⟩)
              | .ok fileSize =>
                if fileSize ≤ 0 then
                  (.error .fileHasNoContents, ⟨[], [], []⟩)
                else
                  let media : Media :=
                    { origin := origin
                      mediaId := mediaId
                      uploadName := filename
                      contentType := contentType
                      userId := userId
                      sha256Hash := hash
                      sizeBytes := fileSize
                      datastoreId := datastoreId
                      location := location
                      creationTs := env.nowMillis }
                  match env.insertResult with
                  | some e =>
                    (.error e,
                      ⟨[.remove fileLocation (!env.removeFails)], [media], []⟩)
                  | none =>
                    (.ok media,
                      ⟨[], [media], [trackUploadAsLastAccess env media]⟩)

/-! Concrete fixtures used to exercise the definitions. -/

/-- A simple concrete glob matcher (exact match), sufficient for witnesses. -/
def testGlob (p s : String) : Bool := p == s

/-- An open configuration: no size limit, no allowed-types, no per-user
entries. -/
def testCfgOpen : UploadsConfig := ⟨0, [], []⟩

/-- A configuration whose only per-user entry has zero MIME globs. -/
def testCfgCharlie : UploadsConfig := ⟨0, [], [("@charlie:h", [])]⟩

/-- An existing media record, used as a duplicate-lookup result. -/
def testMediaAlice : Media :=
  ⟨"h", "mid1", "a.png", "image/png", "@alice:h", "hashX", 5, "ds1", "loc1", 100⟩

/-- A baseline oracle on which all external calls succeed. -/
def testEnv : Env :=
  { persistResult := .ok ("ds1", "tmploc")
    resolveFilePath := fun l => "/tmp/" ++ l
    getMimeType := .ok "image/png"
    getFileHash := .ok "hashX"
    getByHash := .ok []
    insertResult := none
    resolveMediaLocation := .ok "/media/hashX"
    fileExists := .ok false
    fileSize := .ok 5
    upsertLastAccess := none
    nowMillis := 777
    removeFails := false
    renameFails := false }

/-! Helper lemmas about the admission-policy loops. -/

lemma anyGlobMatches_iff (glob : String → String → Bool) (ct : String)
    (l : List String) :
    anyGlobMatches glob ct l = true ↔ ∃ g ∈ l, glob g ct = true := by
  induction l with
  | nil => simp [anyGlobMatches]
  | cons g rest ih =>
    by_cases hg : glob g ct = true <;> simp [anyGlobMatches, hg, ih]

lemma perUserLoop_allowed_iff (glob : String → String → Bool)
    (ct rct uid : String) (l : List (String × List String)) (um : Bool) :
    (perUserLoop glob ct rct uid l um).1 = true ↔
      ∃ e ∈ l, glob e.1 uid = true ∧ ∃ g ∈ e.2, glob g ct = true := by
  induction l generalizing um with
  | nil => simp [perUserLoop]
  | cons e rest ih =>
    obtain ⟨user, excl⟩ := e
    by_cases hu : glob user uid = true
    · by_cases hm : anyGlobMatches glob ct excl = true
      · simp only [perUserLoop, hu, if_true]
        simp [hu, (anyGlobMatches_iff glob ct excl).1 hm, hm]
      · simp only [perUserLoop, hu, if_true, hm, if_false]
        simp only [Bool.not_eq_true] at hm
        simp [hm, ih, hu, ← anyGlobMatches_iff]
    · simp only [perUserLoop, hu, if_false]
      simp only [Bool.not_eq_true] at hu
      simp [hu, ih]

lemma perUserLoop_userMatched (glob : String → String → Bool)
    (ct rct uid : String) (l : List (String × List String)) (um : Bool) :
    (perUserLoop glob ct rct uid l um).2.1 =
      (um || l.any fun e => glob e.1 uid) := by
  induction l generalizing um with
  | nil => simp [perUserLoop]
  | cons e rest ih =>
    obtain ⟨user, excl⟩ := e
    by_cases hu : glob user uid = true
    · by_cases hm : anyGlobMatches glob ct excl = true
      · simp [perUserLoop, hu, hm]
      · simp [perUserLoop, hu, hm, ih]
    · simp only [Bool.not_eq_true] at hu
      simp [perUserLoop, hu, ih]

lemma perUserLoop_ignores_reported (glob : String → String → Bool)
    (ct r1 r2 uid : String) (l : List (String × List String)) (um : Bool) :
    (perUserLoop glob ct r1 uid l um).1 = (perUserLoop glob ct r2 uid l um).1 ∧
      (perUserLoop glob ct r1 uid l um).2.1 =
        (perUserLoop glob ct r2 uid l um).2.1 := by
  induction l generalizing um with
  | nil => simp [perUserLoop]
  | cons e rest ih =>
    obtain ⟨user, excl⟩ := e
    by_cases hu : glob user uid = true
    · by_cases hm : anyGlobMatches glob ct excl = true
      · simp [perUserLoop, hu, hm]
      · simp [perUserLoop, hu, hm, ih]
    · simp only [Bool.not_eq_true] at hu
      simp [perUserLoop, hu, ih]

/-- How the general allowed-types check evaluates. -/
lemma generalCheck_iff (glob : String → String → Bool) (ct : String)
    (ats : List String) :
    (if ats.length = 0 then true else anyGlobMatches glob ct ats) = true ↔
      (ats = [] ∨ ∃ p ∈ ats, glob p ct = true) := by
  cases ats with
  | nil => simp
  | cons a rest => simp [anyGlobMatches_iff]

/-- C6: `IsRequestTooLarge` returns false whenever `max-size-bytes ≤ 0`;
otherwise, a non-negative `contentLength` is compared against the limit;
otherwise a non-empty header is parsed as an int64 with a parse failure
treated as too large and a parsed value compared against the limit; and
otherwise the result is false. -/
theorem isRequestTooLarge_spec (cfg : UploadsConfig) (cl : Int) (hdr : String) :
    (cfg.maxSizeBytes ≤ 0 → IsRequestTooLarge cfg cl hdr = false) ∧
    (0 < cfg.maxSizeBytes → 0 ≤ cl →
      (IsRequestTooLarge cfg cl hdr = true ↔ cfg.maxSizeBytes < cl)) ∧
    (0 < cfg.maxSizeBytes → cl < 0 → hdr ≠ "" → goParseInt64 hdr = none →
      IsRequestTooLarge cfg cl hdr = true) ∧
    (∀ v, 0 < cfg.maxSizeBytes → cl < 0 → hdr ≠ "" → goParseInt64 hdr = some v →
      (IsRequestTooLarge cfg cl hdr = true ↔ cfg.maxSizeBytes < v)) ∧
    (0 < cfg.maxSizeBytes → cl < 0 → hdr = "" →
      IsRequestTooLarge cfg cl hdr = false) := by
  refine ⟨fun h0 => ?_, fun h0 h1 => ?_, fun h0 h1 h2 h3 => ?_,
    fun v h0 h1 h2 h3 => ?_, fun h0 h1 h2 => ?_⟩ <;>
    simp_all [IsRequestTooLarge]

/-- C6 witness: with `max-size-bytes = 0`, a 1-TiB declared length is not
too large. -/
theorem isRequestTooLarge_spec_witness :
    (0 : Int) ≤ 0 ∧ IsRequestTooLarge testCfgOpen (2 ^ 40) "" = false :=
  ⟨by decide, (isRequestTooLarge_spec testCfgOpen (2 ^ 40) "").1 (by decide)⟩

/-- C4: when the user id is not the sentinel and some per-user entry's
user pattern matches it, the decision is true iff some MIME glob under a
matching per-user entry matches the sniffed type, and the general
allowed-types list is not consulted (the decision is invariant under
replacing it). -/
theorem isAllowed_perUser_override (glob : String → String → Bool)
    (cfg : UploadsConfig) (ct rct uid : String)
    (huid : uid ≠ NoApplicableUploadUser)
    (hmatch : ∃ e ∈ cfg.perUserExclusions, glob e.1 uid = true) :
    ((IsAllowed glob cfg ct rct uid).1 = true ↔
      ∃ e ∈ cfg.perUserExclusions, glob e.1 uid = true ∧
        ∃ g ∈ e.2, glob g ct = true) ∧
    ∀ ats, (IsAllowed glob { cfg with allowedTypes := ats } ct rct uid).1 =
      (IsAllowed glob cfg ct rct uid).1 := by
  have hum : (perUserLoop glob ct rct uid cfg.perUserExclusions false).2.1
      = true := by
    rw [perUserLoop_userMatched]
    simp only [Bool.false_or, List.any_eq_true]
    obtain ⟨e, he, hg⟩ := hmatch
    exact ⟨e, he, hg⟩
  constructor
  · simp only [IsAllowed, if_pos huid, hum]
    simp [perUserLoop_allowed_iff]
  · intro ats
    simp only [IsAllowed, if_pos huid, hum]
    simp

/-- C4 witness: a user matched only by a per-user entry with zero MIME
globs is denied even though the general list is empty. -/
theorem isAllowed_perUser_override_witness :
    ("@charlie:h" ≠ NoApplicableUploadUser ∧
      ∃ e ∈ testCfgCharlie.perUserExclusions,
        testGlob e.1 "@charlie:h" = true) ∧
    ((IsAllowed testGlob testCfgCharlie "video/mp4" "video/mp4"
        "@charlie:h").1 = true ↔
      ∃ e ∈ testCfgCharlie.perUserExclusions,
        testGlob e.1 "@charlie:h" = true ∧
          ∃ g ∈ e.2, testGlob g "video/mp4" = true) :=
  ⟨⟨by decide, by decide⟩,
    (isAllowed_perUser_override testGlob testCfgCharlie "video/mp4"
      "video/mp4" "@charlie:h" (by decide) (by decide)).1⟩

/-- C5: when the user id is the sentinel, or no per-user pattern matches
it, the decision is the general-list one: true iff `allowed-types` is empty
or some pattern in it matches the sniffed type.  For the sentinel user the
whole evaluation (decision and log) is invariant under replacing the
per-user entries. -/
theorem isAllowed_general_fallthrough (glob : String → String → Bool)
    (cfg : UploadsConfig) (ct rct uid : String)
    (h : uid = NoApplicableUploadUser ∨
      ∀ e ∈ cfg.perUserExclusions, glob e.1 uid = false) :
    ((IsAllowed glob cfg ct rct uid).1 = true ↔
      (cfg.allowedTypes = [] ∨ ∃ p ∈ cfg.allowedTypes, glob p ct = true)) ∧
    ∀ pue, IsAllowed glob { cfg with perUserExclusions := pue } ct rct
        NoApplicableUploadUser =
      IsAllowed glob cfg ct rct NoApplicableUploadUser := by
  constructor
  · rcases h with h | h
    · subst h
      simp only [IsAllowed, ne_eq, not_true_eq_false, if_false]
      simpa using generalCheck_iff glob ct cfg.allowedTypes
    · by_cases huid : uid = NoApplicableUploadUser
      · subst huid
        simp only [IsAllowed, ne_eq, not_true_eq_false, if_false]
        simpa using generalCheck_iff glob ct cfg.allowedTypes
      · have hum : (perUserLoop glob ct rct uid cfg.perUserExclusions
            false).2.1 = false := by
          rw [perUserLoop_userMatched]
          simp only [Bool.false_or, List.any_eq_false]
          intro e he
          simp [h e he]
        have hal : (perUserLoop glob ct rct uid cfg.perUserExclusions
            false).1 = false := by
          rw [← Bool.not_eq_true, perUserLoop_allowed_iff]
          rintro ⟨e, he, hg, -⟩
          rw [h e he] at hg
          exact Bool.false_ne_true hg
        simp only [IsAllowed, if_pos huid, hum, hal]
        simpa using generalCheck_iff glob ct cfg.allowedTypes
  · intro pue
    simp [IsAllowed]

/-- C5 witness: empty allowed-types with an unmatched user allows any
MIME. -/
theorem isAllowed_general_fallthrough_witness :
    ("@bob:h" = NoApplicableUploadUser ∨
      ∀ e ∈ testCfgCharlie.perUserExclusions,
        testGlob e.1 "@bob:h" = false) ∧
    ((IsAllowed testGlob testCfgCharlie "video/mp4" "x" "@bob:h").1 = true ↔
      (testCfgCharlie.allowedTypes = [] ∨
        ∃ p ∈ testCfgCharlie.allowedTypes, testGlob p "video/mp4" = true)) :=
  ⟨Or.inr (by decide),
    (isAllowed_general_fallthrough testGlob testCfgCharlie "video/mp4" "x"
      "@bob:h" (Or.inr (by decide))).1⟩

/-- C9: the admission decision never depends on the reported content type;
only the log lines mention it. -/
theorem isAllowed_decision_ignores_reported (glob : String → String → Bool)
    (cfg : UploadsConfig) (ct uid r1 r2 : String) :
    (IsAllowed glob cfg ct r1 uid).1 = (IsAllowed glob cfg ct r2 uid).1 := by
  by_cases huid : uid ≠ NoApplicableUploadUser
  · obtain ⟨h1, h2⟩ :=
      perUserLoop_ignores_reported glob ct r1 r2 uid cfg.perUserExclusions false
    simp only [IsAllowed, if_pos huid, h1, h2]
    split <;> rfl
  · simp only [ne_eq, not_not] at huid
    subst huid
    simp [IsAllowed]

/-! Helper lemmas about `StoreDirect`. -/

/-- The record-or-error component of `StoreDirect` does not depend on the
outcome of the target-existence check, the last-access upsert, or the
remove / rename calls: those feed only the effect trace (remove and rename
errors are discarded, the upsert error is swallowed, a failed existence
check merely selects rename over remove). -/
lemma storeDirect_fst_ignores (glob : String → String → Bool)
    (cfg : UploadsConfig) (env : Env)
    (ct fn uid orig mid : String) (fe : Except Err Bool) (u : Option Err)
    (rm rn : Bool) :
    (StoreDirect glob cfg
        { env with
          fileExists := fe
          upsertLastAccess := u
          removeFails := rm
          renameFails := rn } ct fn uid orig mid).1 =
      (StoreDirect glob cfg env ct fn uid orig mid).1 := by
  cases env
  unfold StoreDirect
  dsimp only
  repeat' split
  all_goals rfl

/-- Every successful return upserts exactly one last-access entry, for the
returned record's hash, at the oracle's current time. -/
lemma storeDirect_ok_upserts (glob : String → String → Bool)
    (cfg : UploadsConfig) (env : Env) (ct fn uid orig mid : String)
    (m : Media) :
    (StoreDirect glob cfg env ct fn uid orig mid).1 = .ok m →
      (StoreDirect glob cfg env ct fn uid orig mid).2.upserts =
        [(m.sha256Hash, env.nowMillis, env.upsertLastAccess.isNone)] := by
  generalize hSD : StoreDirect glob cfg env ct fn uid orig mid = out
  unfold StoreDirect at hSD
  dsimp only at hSD
  repeat' split at hSD
  all_goals subst hSD
  all_goals intro hok
  all_goals dsimp only at hok ⊢
  all_goals first
    | (injection hok with h; subst h; rfl)
    | (injection hok)

/-- When the hash lookup's records all carry the computed hash (the media
store's contract for `GetByHash`), any successfully returned record carries
that hash as well. -/
lemma storeDirect_ok_sha (glob : String → String → Bool)
    (cfg : UploadsConfig) (env : Env) (ct fn uid orig mid : String)
    (m : Media) (hash : String) (records : List Media)
    (hhash : env.getFileHash = .ok hash)
    (hbyhash : env.getByHash = .ok records)
    (hc : ∀ r ∈ records, r.sha256Hash = hash) :
    (StoreDirect glob cfg env ct fn uid orig mid).1 = .ok m →
      m.sha256Hash = hash := by
  generalize hSD : StoreDirect glob cfg env ct fn uid orig mid = out
  unfold StoreDirect at hSD
  rw [hhash, hbyhash] at hSD
  dsimp only at hSD
  repeat' split at hSD
  all_goals subst hSD
  all_goals intro hok
  all_goals dsimp only at hok
  all_goals first
    | (injection hok with h; subst h; rfl)
    | (injection hok with h; subst h; dsimp only;
       exact hc _ (List.mem_cons_self _ _))
    | (injection hok with h; subst h
       rename_i heqf
       split at heqf
       · exact hc _ (List.mem_of_find?_eq_some heqf)
       · exact Option.noConfusion heqf)
    | (injection hok)

/-- The clone-and-insert path: with duplicate records present and no exact
duplicate firing, the returned and inserted record is the first lookup
record overwritten with the call's attributes, and last-access is upserted
for the template's hash. -/
lemma storeDirect_clone (glob : String → String → Bool) (cfg : UploadsConfig)
    (env : Env) (ct fn uid orig mid ds loc mime hash target : String)
    (r0 : Media) (rs : List Media)
    (hpersist : env.persistResult = .ok (ds, loc))
    (hmime : env.getMimeType = .ok mime)
    (hallowed : (IsAllowed glob cfg mime ct uid).1 = true)
    (hhash : env.getFileHash = .ok hash)
    (hbyhash : env.getByHash = .ok (r0 :: rs))
    (hnodup : uid = NoApplicableUploadUser ∨
      ∀ r ∈ r0 :: rs, ¬(r.userId = uid ∧ r.origin = orig ∧ r.contentType = ct))
    (hins : env.insertResult = none)
    (hres : env.resolveMediaLocation = .ok target) :
    (StoreDirect glob cfg env ct fn uid orig mid).1 =
      .ok { r0 with
            origin := orig
            mediaId := mid
            userId := uid
            uploadName := fn
            contentType := ct
            creationTs := env.nowMillis } ∧
    (StoreDirect glob cfg env ct fn uid orig mid).2.inserted =
      [{ r0 with
         origin := orig
         mediaId := mid
         userId := uid
         uploadName := fn
         contentType := ct
         creationTs := env.nowMillis }] ∧
    (StoreDirect glob cfg env ct fn uid orig mid).2.upserts =
      [(r0.sha256Hash, env.nowMillis, env.upsertLastAccess.isNone)] := by
  have hexact : (if uid ≠ NoApplicableUploadUser then
      (r0 :: rs).find? fun r =>
        r.userId == uid && r.origin == orig && r.contentType == ct
    else none) = none := by
    rcases hnodup with h | h
    · simp [h]
    · by_cases huid : uid = NoApplicableUploadUser
      · simp [huid]
      · rw [if_pos huid]
        refine List.find?_eq_none.2 fun r hr => ?_
        simp only [Bool.and_eq_true, beq_iff_eq]
        intro hcon
        exact h r hr ⟨hcon.1.1, hcon.1.2, hcon.2⟩
  refine ⟨?_, ?_, ?_⟩ <;>
    simp [StoreDirect, hpersist, hmime, hallowed, hhash, hbyhash, hexact,
      hins, hres, trackUploadAsLastAccess]

/-- C2: a non-sentinel re-upload of bytes already recorded under the same
(user id, origin, reported content type) deletes the temp file, upserts
last-access for the hash, inserts nothing, and returns a matching existing
record unchanged. -/
theorem storeDirect_exact_duplicate (glob : String → String → Bool)
    (cfg : UploadsConfig) (env : Env)
    (ct fn uid orig mid ds loc mime hash : String) (records : List Media)
    (hpersist : env.persistResult = .ok (ds, loc))
    (hmime : env.getMimeType = .ok mime)
    (hallowed : (IsAllowed glob cfg mime ct uid).1 = true)
    (hhash : env.getFileHash = .ok hash)
    (hbyhash : env.getByHash = .ok records)
    (hc : ∀ r ∈ records, r.sha256Hash = hash)
    (huid : uid ≠ NoApplicableUploadUser)
    (hex : ∃ r ∈ records,
      r.userId = uid ∧ r.origin = orig ∧ r.contentType = ct) :
    ∃ r, (StoreDirect glob cfg env ct fn uid orig mid).1 = .ok r ∧
      r ∈ records ∧ r.userId = uid ∧ r.origin = orig ∧ r.contentType = ct ∧
      (StoreDirect glob cfg env ct fn uid orig mid).2.inserted = [] ∧
      (StoreDirect glob cfg env ct fn uid orig mid).2.fsOps =
        [.remove (env.resolveFilePath loc) (!env.removeFails)] ∧
      (StoreDirect glob cfg env ct fn uid orig mid).2.upserts =
        [(hash, env.nowMillis, env.upsertLastAccess.isNone)] := by
  obtain ⟨r1, hmem1, hu1, ho1, hc1⟩ := hex
  have hsome : (records.find? fun r =>
      r.userId == uid && r.origin == orig && r.contentType == ct).isSome :=
    List.find?_isSome.2 ⟨r1, hmem1, by simp [hu1, ho1, hc1]⟩
  obtain ⟨r, hfind⟩ := Option.isSome_iff_exists.1 hsome
  have hpred := List.find?_some hfind
  simp only [Bool.and_eq_true, beq_iff_eq] at hpred
  have hmem := List.mem_of_find?_eq_some hfind
  cases records with
  | nil => cases hmem
  | cons r0 rs =>
    refine ⟨r, ?_, hmem, hpred.1.1, hpred.1.2, hpred.2, ?_, ?_, ?_⟩ <;>
      simp [StoreDirect, hpersist, hmime, hallowed, hhash, hbyhash, huid,
        hfind, trackUploadAsLastAccess, hc r hmem]

/-- C2 witness: re-uploading Alice's bytes under her exact triple returns
her record unchanged. -/
theorem storeDirect_exact_duplicate_witness :
    (∃ r ∈ [testMediaAlice],
      r.userId = "@alice:h" ∧ r.origin = "h" ∧ r.contentType = "image/png") ∧
    ∃ r, (StoreDirect testGlob testCfgOpen
        { testEnv with getByHash := .ok [testMediaAlice] }
        "image/png" "b.png" "@alice:h" "h" "mid9").1 = .ok r ∧
      r ∈ [testMediaAlice] ∧
      (StoreDirect testGlob testCfgOpen
        { testEnv with getByHash := .ok [testMediaAlice] }
        "image/png" "b.png" "@alice:h" "h" "mid9").2.inserted = [] :=
  ⟨by decide,
    match storeDirect_exact_duplicate testGlob testCfgOpen
      { testEnv with getByHash := .ok [testMediaAlice] }
      "image/png" "b.png" "@alice:h" "h" "mid9" "ds1" "tmploc" "image/png"
      "hashX" [testMediaAlice] rfl rfl rfl rfl rfl (by decide) (by decide)
      (by decide) with
    | ⟨r, h1, h2, _, _, _, h6, _, _⟩ => ⟨r, h1, h2, h6⟩⟩

/-- C3: when a duplicate exists but the exact short-circuit does not fire,
the returned and inserted record keeps (hash, size, datastore id, location)
from the first lookup record and takes (origin, media id, user id, upload
name, reported content type) from the call, with creation time now. -/
theorem storeDirect_clone_insert (glob : String → String → Bool)
    (cfg : UploadsConfig) (env : Env)
    (ct fn uid orig mid ds loc mime hash target : String)
    (r0 : Media) (rs : List Media)
    (hpersist : env.persistResult = .ok (ds, loc))
    (hmime : env.getMimeType = .ok mime)
    (hallowed : (IsAllowed glob cfg mime ct uid).1 = true)
    (hhash : env.getFileHash = .ok hash)
    (hbyhash : env.getByHash = .ok (r0 :: rs))
    (hnodup : uid = NoApplicableUploadUser ∨
      ∀ r ∈ r0 :: rs, ¬(r.userId = uid ∧ r.origin = orig ∧ r.contentType = ct))
    (hins : env.insertResult = none)
    (hres : env.resolveMediaLocation = .ok target) :
    ∃ m, (StoreDirect glob cfg env ct fn uid orig mid).1 = .ok m ∧
      (StoreDirect glob cfg env ct fn uid orig mid).2.inserted = [m] ∧
      m.sha256Hash = r0.sha256Hash ∧ m.sizeBytes = r0.sizeBytes ∧
      m.datastoreId = r0.datastoreId ∧ m.location = r0.location ∧
      m.origin = orig ∧ m.mediaId = mid ∧ m.userId = uid ∧
      m.uploadName = fn ∧ m.contentType = ct ∧
      m.creationTs = env.nowMillis := by
  obtain ⟨h1, h2, -⟩ := storeDirect_clone glob cfg env ct fn uid orig mid ds
    loc mime hash target r0 rs hpersist hmime hallowed hhash hbyhash hnodup
    hins hres
  exact ⟨_, h1, h2, rfl, rfl, rfl, rfl, rfl, rfl, rfl, rfl, rfl, rfl⟩

/-- C3 witness: Bob re-uploading Alice's bytes gets a fresh record carrying
his attributes and her record's (hash, size, datastore id, location). -/
theorem storeDirect_clone_insert_witness :
    ("@bob:h" = NoApplicableUploadUser ∨
      ∀ r ∈ [testMediaAlice], ¬(r.userId = "@bob:h" ∧ r.origin = "h" ∧
        r.contentType = "image/png")) ∧
    ∃ m, (StoreDirect testGlob testCfgOpen
        { testEnv with getByHash := .ok [testMediaAlice] }
        "image/png" "b.png" "@bob:h" "h" "mid9").1 = .ok m ∧
      (StoreDirect testGlob testCfgOpen
        { testEnv with getByHash := .ok [testMediaAlice] }
        "image/png" "b.png" "@bob:h" "h" "mid9").2.inserted = [m] ∧
      m.sha256Hash = testMediaAlice.sha256Hash ∧
      m.location = testMediaAlice.location ∧ m.userId = "@bob:h" :=
  ⟨Or.inr (by decide),
    match storeDirect_clone_insert testGlob testCfgOpen
      { testEnv with getByHash := .ok [testMediaAlice] }
      "image/png" "b.png" "@bob:h" "h" "mid9" "ds1" "tmploc" "image/png"
      "hashX" "/media/hashX" testMediaAlice [] rfl rfl rfl rfl rfl
      (Or.inr (by decide)) rfl rfl with
    | ⟨m, h1, h2, h3, _, _, h6, _, _, h9, _, _, _⟩ => ⟨m, h1, h2, h3, h6, h9⟩⟩

/-- C7: with no records for the hash and a stat'ed size ≤ 0, the result is
the "file has no contents" error, nothing is inserted, and no filesystem
operation is issued (the temp file is left in place). -/
theorem storeDirect_empty_file (glob : String → String → Bool)
    (cfg : UploadsConfig) (env : Env)
    (ct fn uid orig mid ds loc mime hash : String) (sz : Int)
    (hpersist : env.persistResult = .ok (ds, loc))
    (hmime : env.getMimeType = .ok mime)
    (hallowed : (IsAllowed glob cfg mime ct uid).1 = true)
    (hhash : env.getFileHash = .ok hash)
    (hbyhash : env.getByHash = .ok [])
    (hsize : env.fileSize = .ok sz) (hsz : sz ≤ 0) :
    (StoreDirect glob cfg env ct fn uid orig mid).1 =
      .error .fileHasNoContents ∧
    (StoreDirect glob cfg env ct fn uid orig mid).2.inserted = [] ∧
    (StoreDirect glob cfg env ct fn uid orig mid).2.fsOps = [] := by
  refine ⟨?_, ?_, ?_⟩ <;>
    simp [StoreDirect, hpersist, hmime, hallowed, hhash, hbyhash, hsize, hsz]

/-- C7 witness: a zero-byte upload is rejected with "file has no contents"
and no record. -/
theorem storeDirect_empty_file_witness :
    (0 : Int) ≤ 0 ∧
    ((StoreDirect testGlob testCfgOpen { testEnv with fileSize := .ok 0 }
        "image/png" "a.png" "@alice:h" "h" "mid9").1 =
      .error .fileHasNoContents ∧
     (StoreDirect testGlob testCfgOpen { testEnv with fileSize := .ok 0 }
        "image/png" "a.png" "@alice:h" "h" "mid9").2.inserted = [] ∧
     (StoreDirect testGlob testCfgOpen { testEnv with fileSize := .ok 0 }
        "image/png" "a.png" "@alice:h" "h" "mid9").2.fsOps = []) :=
  ⟨by decide,
    storeDirect_empty_file testGlob testCfgOpen
      { testEnv with fileSize := .ok 0 } "image/png" "a.png" "@alice:h" "h"
      "mid9" "ds1" "tmploc" "image/png" "hashX" 0 rfl rfl rfl rfl rfl rfl
      (by decide)⟩

/-- C8: every successful return upserts last-access for the file's hash at
the current time, and the success is unaffected by the upsert's outcome. -/
theorem storeDirect_lastAccess_best_effort (glob : String → String → Bool)
    (cfg : UploadsConfig) (env : Env) (ct fn uid orig mid hash : String)
    (records : List Media) (m : Media)
    (hhash : env.getFileHash = .ok hash)
    (hbyhash : env.getByHash = .ok records)
    (hc : ∀ r ∈ records, r.sha256Hash = hash)
    (hok : (StoreDirect glob cfg env ct fn uid orig mid).1 = .ok m) :
    (StoreDirect glob cfg env ct fn uid orig mid).2.upserts =
      [(hash, env.nowMillis, env.upsertLastAccess.isNone)] ∧
    ∀ u, (StoreDirect glob cfg { env with upsertLastAccess := u }
        ct fn uid orig mid).1 = .ok m := by
  have hsha := storeDirect_ok_sha glob cfg env ct fn uid orig mid m hash
    records hhash hbyhash hc hok
  have hup := storeDirect_ok_upserts glob cfg env ct fn uid orig mid m hok
  refine ⟨by rw [hup, hsha], fun u => ?_⟩
  have hinv := storeDirect_fst_ignores glob cfg env ct fn uid orig mid
    env.fileExists u env.removeFails env.renameFails
  rw [hinv]
  exact hok

/-- C8 witness: a fresh successful upload upserts (hash, now) once. -/
theorem storeDirect_lastAccess_best_effort_witness :
    (StoreDirect testGlob testCfgOpen testEnv
        "image/png" "a.png" "@alice:h" "h" "mid9").1 =
      .ok ⟨"h", "mid9", "a.png", "image/png", "@alice:h", "hashX", 5, "ds1",
        "tmploc", 777⟩ ∧
    (StoreDirect testGlob testCfgOpen testEnv
        "image/png" "a.png" "@alice:h" "h" "mid9").2.upserts =
      [("hashX", 777, true)] :=
  ⟨rfl,
    (storeDirect_lastAccess_best_effort testGlob testCfgOpen testEnv
      "image/png" "a.png" "@alice:h" "h" "mid9" "hashX" []
      ⟨"h", "mid9", "a.png", "image/png", "@alice:h", "hashX", 5, "ds1",
        "tmploc", 777⟩ rfl rfl (by decide) rfl).1⟩

/-- C10: on the clone path, once the insert and the target-path resolution
have succeeded, the record is returned with no error regardless of the
outcomes of the existence check, the rename, and the remove. -/
theorem storeDirect_promotion_errors_discarded (glob : String → String → Bool)
    (cfg : UploadsConfig) (env : Env)
    (ct fn uid orig mid ds loc mime hash target : String)
    (r0 : Media) (rs : List Media)
    (hpersist : env.persistResult = .ok (ds, loc))
    (hmime : env.getMimeType = .ok mime)
    (hallowed : (IsAllowed glob cfg mime ct uid).1 = true)
    (hhash : env.getFileHash = .ok hash)
    (hbyhash : env.getByHash = .ok (r0 :: rs))
    (hnodup : uid = NoApplicableUploadUser ∨
      ∀ r ∈ r0 :: rs, ¬(r.userId = uid ∧ r.origin = orig ∧ r.contentType = ct))
    (hins : env.insertResult = none)
    (hres : env.resolveMediaLocation = .ok target) :
    ∀ fe rm rn, (StoreDirect glob cfg
        { env with fileExists := fe, removeFails := rm, renameFails := rn }
        ct fn uid orig mid).1 =
      .ok { r0 with
            origin := orig
            mediaId := mid
            userId := uid
            uploadName := fn
            contentType := ct
            creationTs := env.nowMillis } := by
  intro fe rm rn
  have hbase := (storeDirect_clone glob cfg env ct fn uid orig mid ds loc
    mime hash target r0 rs hpersist hmime hallowed hhash hbyhash hnodup hins
    hres).1
  have hinv := storeDirect_fst_ignores glob cfg env ct fn uid orig mid fe
    env.upsertLastAccess rm rn
  rw [hinv]
  exact hbase

/-- C10 witness: with a failing existence check and failing rename and
remove, the clone upload still reports success. -/
theorem storeDirect_promotion_errors_discarded_witness :
    (StoreDirect testGlob testCfgOpen
        { testEnv with
          getByHash := .ok [testMediaAlice]
          fileExists := .error (.io "stat failed")
          removeFails := true
          renameFails := true }
        "image/png" "b.png" "@bob:h" "h" "mid9").1 =
      .ok { testMediaAlice with
            origin := "h"
            mediaId := "mid9"
            userId := "@bob:h"
            uploadName := "b.png"
            contentType := "image/png"
            creationTs := 777 } :=
  storeDirect_promotion_errors_discarded testGlob testCfgOpen
    { testEnv with getByHash := .ok [testMediaAlice] }
    "image/png" "b.png" "@bob:h" "h" "mid9" "ds1" "tmploc" "image/png"
    "hashX" "/media/hashX" testMediaAlice [] rfl rfl rfl rfl rfl
    (Or.inr (by decide)) rfl rfl (.error (.io "stat failed")) true true

/-- C1 counterexample: two error returns after the temp path is resolved
leave the temp file in place — the size ≤ 0 rejection, and a failure to
resolve the clone target path. -/
theorem storeDirect_cleanup_counterexample :
    ((StoreDirect testGlob testCfgOpen { testEnv with fileSize := .ok 0 }
        "image/png" "a.png" "@alice:h" "h" "mid9").1 =
      .error .fileHasNoContents ∧
     (StoreDirect testGlob testCfgOpen { testEnv with fileSize := .ok 0 }
        "image/png" "a.png" "@alice:h" "h" "mid9").2.fsOps = []) ∧
    ((StoreDirect testGlob testCfgOpen
        { testEnv with
          getByHash := .ok [testMediaAlice]
          resolveMediaLocation := .error (.io "resolve failed") }
        "image/png" "b.png" "@bob:h" "h" "mid9").1 =
      .error (.io "resolve failed") ∧
     (StoreDirect testGlob testCfgOpen
        { testEnv with
          getByHash := .ok [testMediaAlice]
          resolveMediaLocation := .error (.io "resolve failed") }
        "image/png" "b.png" "@bob:h" "h" "mid9").2.fsOps = []) :=
  ⟨⟨rfl, rfl⟩, ⟨rfl, rfl⟩⟩

/-- C1 (amended): after the temp path is resolved, every error return
removes the temp file (the remove's own failure never replaces the error),
except the size ≤ 0 "file has no contents" rejection and a clone-path
target-resolution failure, which leave it in place. -/
theorem storeDirect_error_cleanup (glob : String → String → Bool)
    (cfg : UploadsConfig) (env : Env)
    (ct fn uid orig mid ds loc : String) (e : Err)
    (hpersist : env.persistResult = .ok (ds, loc))
    (he : (StoreDirect glob cfg env ct fn uid orig mid).1 = .error e) :
    ((StoreDirect glob cfg env ct fn uid orig mid).2.fsOps =
        [.remove (env.resolveFilePath loc) (!env.removeFails)] ∨
      (e = .fileHasNoContents ∧
        (StoreDirect glob cfg env ct fn uid orig mid).2.fsOps = []) ∨
      (env.resolveMediaLocation = .error e ∧
        (StoreDirect glob cfg env ct fn uid orig mid).2.fsOps = [])) ∧
    ∀ b, (StoreDirect glob cfg { env with removeFails := b }
        ct fn uid orig mid).1 = .error e := by
  constructor
  · revert he
    generalize hSD : StoreDirect glob cfg env ct fn uid orig mid = out
    unfold StoreDirect at hSD
    rw [hpersist] at hSD
    dsimp only at hSD
    repeat' split at hSD
    all_goals subst hSD
    all_goals intro hok
    all_goals dsimp only at hok ⊢
    all_goals first
      | (injection hok with h; subst h; exact Or.inl rfl)
      | (injection hok with h; subst h; exact Or.inr (Or.inl ⟨rfl, rfl⟩))
      | (injection hok with h; subst h
         rename_i heqr
         exact Or.inr (Or.inr ⟨heqr, rfl⟩))
      | (injection hok)
  · intro b
    have hinv := storeDirect_fst_ignores glob cfg env ct fn uid orig mid
      env.fileExists env.upsertLastAccess b env.renameFails
    rw [hinv]
    exact he

/-- C1 (amended) witness: a sniff failure removes the temp file even when
the remove itself fails. -/
theorem storeDirect_error_cleanup_witness :
    (StoreDirect testGlob testCfgOpen
        { testEnv with getMimeType := .error (.io "sniff failed") }
        "image/png" "a.png" "@alice:h" "h" "mid9").1 =
      .error (.io "sniff failed") ∧
    ((StoreDirect testGlob testCfgOpen
        { testEnv with getMimeType := .error (.io "sniff failed") }
        "image/png" "a.png" "@alice:h" "h" "mid9").2.fsOps =
        [.remove ("/tmp/tmploc") true] ∨
      ((.io "sniff failed" : Err) = .fileHasNoContents ∧
        (StoreDirect testGlob testCfgOpen
          { testEnv with getMimeType := .error (.io "sniff failed") }
          "image/png" "a.png" "@alice:h" "h" "mid9").2.fsOps = []) ∨
      (({ testEnv with
            getMimeType := .error (.io "sniff failed") } : Env).resolveMediaLocation =
          .error (.io "sniff failed") ∧
        (StoreDirect testGlob testCfgOpen
          { testEnv with getMimeType := .error (.io "sniff failed") }
          "image/png" "a.png" "@alice:h" "h" "mid9").2.fsOps = [])) :=
  ⟨rfl,
    (storeDirect_error_cleanup testGlob testCfgOpen
      { testEnv with getMimeType := .error (.io "sniff failed") }
      "image/png" "a.png" "@alice:h" "h" "mid9" "ds1" "tmploc"
      (.io "sniff failed") rfl rfl).1⟩

end UploadController
